import Mathlib

/-!
Shallow embedding of src/seq_consistency_poc.c, a store-buffering litmus
test: two worker threads each store 1 into their own shared variable and
then load the other worker's variable, while a coordinator resets the
shared state, releases both workers via semaphores, waits for both
completion signals and counts trials whose result pair (r1, r2) = (0, 0),
an outcome that is impossible under sequential consistency.
-/

/-- The four shared `int` cells of the program (line 66-67 of the source):
`X`, `Y` are the shared variables, `r1`, `r2` the per-worker result cells.
Only the values 0 and 1 are ever stored into `X` and `Y`. -/
structure Mem where
  X : Int
  Y : Int
  r1 : Int
  r2 : Int
deriving DecidableEq, Repr

/-- The four memory operations of one trial's transaction:
thread1 runs `X = 1` (line 86) then `r1 = Y` (line 88);
thread2 runs `Y = 1` (line 112) then `r2 = X` (line 114). -/
inductive Op where
  | storeX : Op
  | loadY : Op
  | storeY : Op
  | loadX : Op
deriving DecidableEq, Repr

/-- Effect of a single operation on memory. -/
def execOp (m : Mem) : Op → Mem
  | Op.storeX => { m with X := 1 }
  | Op.loadY => { m with r1 := m.Y }
  | Op.storeY => { m with Y := 1 }
  | Op.loadX => { m with r2 := m.X }

/-- Execute a sequence of operations left to right: a total order in which
the four memory accesses hit the shared memory. -/
def execOps (m : Mem) (l : List Op) : Mem := l.foldl execOp m

/-- The trial's four operations (each occurs exactly once per trial). -/
def trialOps : List Op := [Op.storeX, Op.loadY, Op.storeY, Op.loadX]

/-- The coordinator's per-trial reset, lines 146-147: `X = 0; Y = 0;`.
The result cells are not touched. -/
def resetXY (m : Mem) : Mem := { m with X := 0, Y := 0 }

/-- A total order on the four operations respects program order iff each
worker's store comes before that worker's subsequent load: `X = 1` before
`r1 = Y` and `Y = 1` before `r2 = X`. -/
def programOrdered (l : List Op) : Prop :=
  l.indexOf Op.storeX < l.indexOf Op.loadY ∧ l.indexOf Op.storeY < l.indexOf Op.loadX

instance (l : List Op) : Decidable (programOrdered l) := by
  unfold programOrdered; infer_instance

example :
    (execOps (resetXY ⟨7, 7, 7, 7⟩) trialOps).r1 = 0 ∧
    (execOps (resetXY ⟨7, 7, 7, 7⟩) trialOps).r2 = 1 := by decide

example : programOrdered trialOps := by decide

example : (trialOps.permutations'.filter (fun l => decide (programOrdered l))).length = 6 := by
  decide

/-- C2: for every sequentially consistent total order of the four
operations (a permutation of the trial's operations respecting both
workers' program orders), executed after the coordinator's reset from any
prior memory contents, at least one load observes the value 1, so the
result pair (0, 0) is unreachable. -/
theorem seqConsistent_no_double_zero (l : List Op) (m : Mem)
    (hperm : l.Perm trialOps) (hpo : programOrdered l) :
    ((execOps (resetXY m) l).r1 = 1 ∨ (execOps (resetXY m) l).r2 = 1) ∧
    ¬((execOps (resetXY m) l).r1 = 0 ∧ (execOps (resetXY m) l).r2 = 0) := by
  have hmem : l ∈ trialOps.permutations' := List.mem_permutations'.mpr hperm
  fin_cases hmem <;>
    simp_all [programOrdered, execOps, execOp, resetXY, trialOps]

/-- Closed witness for the sequential-consistency theorem at the program
text order itself, starting from the all-zero memory. -/
theorem seqConsistent_no_double_zero_witness :
    ((execOps (resetXY ⟨0, 0, 0, 0⟩) trialOps).r1 = 1 ∨
      (execOps (resetXY ⟨0, 0, 0, 0⟩) trialOps).r2 = 1) ∧
    ¬((execOps (resetXY ⟨0, 0, 0, 0⟩) trialOps).r1 = 0 ∧
      (execOps (resetXY ⟨0, 0, 0, 0⟩) trialOps).r2 = 0) :=
  seqConsistent_no_double_zero trialOps ⟨0, 0, 0, 0⟩ (List.Perm.refl _) (by decide)

/-- C6: for every completed trial — modelled as an arbitrary total order in
which the trial's four memory accesses hit memory, program order NOT
required, so hardware reorderings are included — the result pair lands in
{(0,0), (0,1), (1,0), (1,1)}: each result cell holds either the reset
value 0 or the stored value 1, whatever the memory held before the reset. -/
theorem trial_results_in_zero_one (l : List Op) (m : Mem)
    (hperm : l.Perm trialOps) :
    ((execOps (resetXY m) l).r1, (execOps (resetXY m) l).r2) ∈
      [((0 : Int), (0 : Int)), (0, 1), (1, 0), (1, 1)] := by
  have hmem : l ∈ trialOps.permutations' := List.mem_permutations'.mpr hperm
  fin_cases hmem <;>
    simp_all [execOps, execOp, resetXY, trialOps]

/-- Closed witness: a fully reordered trial (both loads before both
stores) still lands in the invariant set — at (0, 0). -/
theorem trial_results_in_zero_one_witness :
    ((execOps (resetXY ⟨5, 6, 7, 8⟩) [Op.loadY, Op.loadX, Op.storeX, Op.storeY]).r1,
      (execOps (resetXY ⟨5, 6, 7, 8⟩) [Op.loadY, Op.loadX, Op.storeX, Op.storeY]).r2) ∈
      [((0 : Int), (0 : Int)), (0, 1), (1, 0), (1, 1)] :=
  trial_results_in_zero_one [Op.loadY, Op.loadX, Op.storeX, Op.storeY] ⟨5, 6, 7, 8⟩
    (by decide)

/-- Does an operation write the result cell `r1`? Only thread1's load
`r1 = Y` (line 88) does. -/
def writesR1 : Op → Bool
  | Op.loadY => true
  | _ => false

/-- Does an operation write the result cell `r2`? Only thread2's load
`r2 = X` (line 114) does. -/
def writesR2 : Op → Bool
  | Op.loadX => true
  | _ => false

/-- Which worker thread executes each operation: thread1 runs lines 86-88,
thread2 runs lines 112-114. -/
def opOwner : Op → Nat
  | Op.storeX => 1
  | Op.loadY => 1
  | Op.storeY => 2
  | Op.loadX => 2

/-- C9: the coordinator's reset writes only `X` and `Y` and leaves both
result cells unchanged; in every trial each result cell is written by
exactly one operation, and that operation belongs to the owning worker;
and after reset plus the trial's four accesses in any order, the final
result cells do not depend on the memory left by the previous trial —
they are overwritten each trial rather than reset. -/
theorem reset_frame_and_result_ownership :
    (∀ m : Mem, (resetXY m).r1 = m.r1 ∧ (resetXY m).r2 = m.r2 ∧
      (resetXY m).X = 0 ∧ (resetXY m).Y = 0) ∧
    (∀ l : List Op, l.Perm trialOps →
      l.countP writesR1 = 1 ∧ l.countP writesR2 = 1) ∧
    (∀ op : Op, (writesR1 op = true → opOwner op = 1) ∧
      (writesR2 op = true → opOwner op = 2)) ∧
    (∀ l : List Op, l.Perm trialOps → ∀ m m' : Mem,
      (execOps (resetXY m) l).r1 = (execOps (resetXY m') l).r1 ∧
      (execOps (resetXY m) l).r2 = (execOps (resetXY m') l).r2) := by
  refine ⟨fun m => ⟨rfl, rfl, rfl, rfl⟩, fun l hperm => ?_, fun op => ?_, fun l hperm m m' => ?_⟩
  · rw [hperm.countP_eq, hperm.countP_eq]
    exact ⟨by decide, by decide⟩
  · cases op <;> simp [writesR1, writesR2, opOwner]
  · have hmem : l ∈ trialOps.permutations' := List.mem_permutations'.mpr hperm
    fin_cases hmem <;>
      simp_all [execOps, execOp, resetXY, trialOps]

/-- Closed witness for the frame/ownership theorem: reset on a concrete
memory keeps the result cells, the program-order trial writes each result
cell once, and two different prior memories yield the same result cells. -/
theorem reset_frame_and_result_ownership_witness :
    ((resetXY ⟨2, 3, 4, 5⟩).r1 = 4 ∧ (resetXY ⟨2, 3, 4, 5⟩).r2 = 5 ∧
      (resetXY ⟨2, 3, 4, 5⟩).X = 0 ∧ (resetXY ⟨2, 3, 4, 5⟩).Y = 0) ∧
    (trialOps.countP writesR1 = 1 ∧ trialOps.countP writesR2 = 1) ∧
    (execOps (resetXY ⟨2, 3, 4, 5⟩) trialOps).r1 =
      (execOps (resetXY ⟨9, 9, 9, 9⟩) trialOps).r1 :=
  ⟨reset_frame_and_result_ownership.1 ⟨2, 3, 4, 5⟩,
    reset_frame_and_result_ownership.2.1 trialOps (List.Perm.refl _),
    (reset_frame_and_result_ownership.2.2.2 trialOps (List.Perm.refl _)
      ⟨2, 3, 4, 5⟩ ⟨9, 9, 9, 9⟩).1⟩

/-- One visible step of a worker thread's loop body (lines 80-91 for
thread1, lines 106-117 for thread2), tagged with the worker number. -/
inductive WEvent where
  | waitStart (w : Nat)
  | randDelay (w : Nat)
  | storeOwn (w : Nat)
  | fence (w : Nat)
  | loadOther (w : Nat)
  | signalDone (w : Nat)
deriving DecidableEq, Repr

/-- `sem_wait(&beginSemaW)` — blocks until the coordinator posts; no
memory effect once it returns. -/
def semWaitBegin (w : Nat) (s : Mem × List WEvent) : Mem × List WEvent :=
  (s.1, s.2 ++ [WEvent.waitStart w])

/-- `while (rand() % 8 != 0) {}` — the randomized delay; its body is
empty, so it has no memory effect (see delayLoop for its termination). -/
def randDelayStep (w : Nat) (s : Mem × List WEvent) : Mem × List WEvent :=
  (s.1, s.2 ++ [WEvent.randDelay w])

/-- Line 86, thread1: `X = 1;`. -/
def storeX1 (s : Mem × List WEvent) : Mem × List WEvent :=
  ({ s.1 with X := 1 }, s.2 ++ [WEvent.storeOwn 1])

/-- Line 112, thread2: `Y = 1;`. -/
def storeY1 (s : Mem × List WEvent) : Mem × List WEvent :=
  ({ s.1 with Y := 1 }, s.2 ++ [WEvent.storeOwn 2])

/-- Lines 87/113: `asm volatile("" ::: "memory");` — compiler-level fence,
no memory effect. -/
def compilerFence (w : Nat) (s : Mem × List WEvent) : Mem × List WEvent :=
  (s.1, s.2 ++ [WEvent.fence w])

/-- Line 88, thread1: `r1 = Y;`. -/
def loadYintoR1 (s : Mem × List WEvent) : Mem × List WEvent :=
  ({ s.1 with r1 := s.1.Y }, s.2 ++ [WEvent.loadOther 1])

/-- Line 114, thread2: `r2 = X;`. -/
def loadXintoR2 (s : Mem × List WEvent) : Mem × List WEvent :=
  ({ s.1 with r2 := s.1.X }, s.2 ++ [WEvent.loadOther 2])

/-- `sem_post(&endSemaW)` — notify the coordinator; no memory effect. -/
def semPostEnd (w : Nat) (s : Mem × List WEvent) : Mem × List WEvent :=
  (s.1, s.2 ++ [WEvent.signalDone w])

/-- One iteration of thread1's loop, lines 82-90, statement by statement. -/
def thread1Iter : Mem × List WEvent → Mem × List WEvent :=
  semPostEnd 1 ∘ loadYintoR1 ∘ compilerFence 1 ∘ storeX1 ∘
    randDelayStep 1 ∘ semWaitBegin 1

/-- One iteration of thread2's loop, lines 108-116, statement by statement. -/
def thread2Iter : Mem × List WEvent → Mem × List WEvent :=
  semPostEnd 2 ∘ loadXintoR2 ∘ compilerFence 2 ∘ storeY1 ∘
    randDelayStep 2 ∘ semWaitBegin 2

/-- C3: one worker loop iteration performs, in this exact order: wait on
its own start semaphore, the randomized delay, the store of 1 into its
own shared variable, the compiler fence, the load of the other worker's
variable into its own result cell, and the post of its done semaphore.
Worker 1 stores X and loads Y into r1; worker 2 stores Y and loads X
into r2; nothing else changes. -/
theorem worker_iteration_order (m : Mem) :
    thread1Iter (m, []) =
      ({ X := 1, Y := m.Y, r1 := m.Y, r2 := m.r2 },
        [WEvent.waitStart 1, WEvent.randDelay 1, WEvent.storeOwn 1,
          WEvent.fence 1, WEvent.loadOther 1, WEvent.signalDone 1]) ∧
    thread2Iter (m, []) =
      ({ X := m.X, Y := 1, r1 := m.r1, r2 := m.X },
        [WEvent.waitStart 2, WEvent.randDelay 2, WEvent.storeOwn 2,
          WEvent.fence 2, WEvent.loadOther 2, WEvent.signalDone 2]) :=
  ⟨rfl, rfl⟩

/-- One visible step of the coordinator's loop (lines 143-162), tagged
with the 1-based trial index it belongs to. -/
inductive CEvent where
  | reset (trial : Nat)
  | signalStart (w : Nat) (trial : Nat)
  | recvDone (w : Nat) (trial : Nat)
  | evalCheck (trial : Nat)
  | nextTrial (trial : Nat)
deriving DecidableEq, Repr

/-- The coordinator's events for one trial `t`, in program order:
`X = 0; Y = 0;` (146-147), `sem_post(&beginSema1); sem_post(&beginSema2);`
(149-150), `sem_wait(&endSema1); sem_wait(&endSema2);` (152-153), the
detection check (156-161) and the `iterations++` of line 143. -/
def coordSeg (t : Nat) : List CEvent :=
  [CEvent.reset t, CEvent.signalStart 1 t, CEvent.signalStart 2 t,
    CEvent.recvDone 1 t, CEvent.recvDone 2 t, CEvent.evalCheck t,
    CEvent.nextTrial t]

/-- The coordinator's trace after `n` completed trials (trials are
numbered from 1, matching `iterations = 1`). -/
def coordTrace : Nat → List CEvent
  | 0 => []
  | n + 1 => coordTrace n ++ coordSeg (n + 1)

/-- C4: each iteration of the coordinator's unbounded loop appends, in
this exact order: the reset of X and Y, the start signal for worker 1
and for worker 2, the receipt of worker 1's and worker 2's done signals,
the evaluation of the detection predicate, and the trial-counter
increment — and then the loop repeats on the grown trace. -/
theorem coordinator_iteration_order (n : Nat) :
    coordTrace (n + 1) = coordTrace n ++
      [CEvent.reset (n + 1), CEvent.signalStart 1 (n + 1),
        CEvent.signalStart 2 (n + 1), CEvent.recvDone 1 (n + 1),
        CEvent.recvDone 2 (n + 1), CEvent.evalCheck (n + 1),
        CEvent.nextTrial (n + 1)] :=
  rfl

/-- The coordinator's trace only ever grows by appending: the trace after
`n` trials is a prefix of the trace after any `N ≥ n` trials. -/
theorem coordTrace_prefix_of_le (n N : Nat) (h : n ≤ N) :
    ∃ rest, coordTrace N = coordTrace n ++ rest := by
  induction N with
  | zero =>
      refine ⟨[], ?_⟩
      have hn : n = 0 := Nat.le_zero.mp h
      simp [hn]
  | succ k ih =>
      rcases Nat.lt_or_ge n (k + 1) with hlt | hge
      · obtain ⟨rest, hrest⟩ := ih (by omega)
        exact ⟨rest ++ coordSeg (k + 1), by
          simp only [coordTrace, hrest, List.append_assoc]⟩
      · have hn : n = k + 1 := by omega
        exact ⟨[], by simp [hn]⟩

/-- Worker `w`'s done signal for trial `t` is already in the trace the
moment trial `t` completes. -/
theorem recvDone_mem_coordTrace (w t : Nat) (hw : w = 1 ∨ w = 2) (ht : 1 ≤ t) :
    CEvent.recvDone w t ∈ coordTrace t := by
  obtain ⟨k, rfl⟩ : ∃ k, t = k + 1 := ⟨t - 1, by omega⟩
  simp only [coordTrace]
  rcases hw with rfl | rfl <;>
    exact List.mem_append.mpr (Or.inr (by simp [coordSeg]))

/-- The reset of a later trial never occurs in the trace of an earlier
completed prefix. -/
theorem reset_not_mem_coordTrace :
    ∀ (n m : Nat), n < m → CEvent.reset m ∉ coordTrace n
  | 0, m, _ => by simp [coordTrace]
  | k + 1, m, h => by
      intro hmem
      simp only [coordTrace] at hmem
      rcases List.mem_append.mp hmem with h1 | h2
      · exact reset_not_mem_coordTrace k m (by omega) h1
      · simp [coordSeg] at h2
        omega

/-- C5: in every (arbitrarily long) coordinator trace, wherever the reset
for trial t+1 occurs, the receipts of both workers' done signals for
trial t occur at strictly earlier positions: no trial's reset happens
before the previous trial's two completion signals have been received,
so trials are strictly sequential from the coordinator's perspective. -/
theorem barrier_reset_after_both_received (N t i : Nat) (ht : 1 ≤ t)
    (hi : (coordTrace N)[i]? = some (CEvent.reset (t + 1))) :
    ∃ j1 j2, j1 < i ∧ j2 < i ∧
      (coordTrace N)[j1]? = some (CEvent.recvDone 1 t) ∧
      (coordTrace N)[j2]? = some (CEvent.recvDone 2 t) := by
  have hmem : CEvent.reset (t + 1) ∈ coordTrace N :=
    List.mem_iff_getElem?.mpr ⟨i, hi⟩
  have htN : t + 1 ≤ N := by
    by_contra hc
    exact reset_not_mem_coordTrace N (t + 1) (by omega) hmem
  obtain ⟨rest, hsplit⟩ := coordTrace_prefix_of_le t N (by omega)
  have hlen : (coordTrace t).length ≤ i := by
    by_contra hc
    push_neg at hc
    have hpre : (coordTrace N)[i]? = (coordTrace t)[i]? := by
      rw [hsplit]
      exact List.getElem?_append_left hc
    exact reset_not_mem_coordTrace t (t + 1) (by omega)
      (List.mem_iff_getElem?.mpr ⟨i, hpre ▸ hi⟩)
  obtain ⟨j1, hj1⟩ :=
    List.mem_iff_getElem?.mp (recvDone_mem_coordTrace 1 t (Or.inl rfl) ht)
  obtain ⟨j2, hj2⟩ :=
    List.mem_iff_getElem?.mp (recvDone_mem_coordTrace 2 t (Or.inr rfl) ht)
  have hj1len : j1 < (coordTrace t).length :=
    (List.getElem?_eq_some_iff.mp hj1).1
  have hj2len : j2 < (coordTrace t).length :=
    (List.getElem?_eq_some_iff.mp hj2).1
  refine ⟨j1, j2, by omega, by omega, ?_, ?_⟩
  · rw [hsplit]
    rw [List.getElem?_append_left hj1len]
    exact hj1
  · rw [hsplit]
    rw [List.getElem?_append_left hj2len]
    exact hj2

/-- Closed witness for the barrier theorem: in the trace of two trials,
the reset of trial 2 sits at position 7 and the receipts of both done
signals of trial 1 are found before it. -/
theorem barrier_reset_after_both_received_witness :
    ∃ j1 j2, j1 < 7 ∧ j2 < 7 ∧
      (coordTrace 2)[j1]? = some (CEvent.recvDone 1 1) ∧
      (coordTrace 2)[j2]? = some (CEvent.recvDone 2 1) :=
  barrier_reset_after_both_received 2 1 7 (by decide) (by decide)

/-- The decorrelation delay of both workers, line 83 and line 109:
`while (rand() % 8 != 0) {}`.  The successive values returned by `rand()`
are modelled by the stream `g`; `i` is the index of the next value to
draw and `fuel` bounds the number of draws so that the function is total
(`none` means the loop did not stop within `fuel` draws).  On success it
returns how many values were drawn together with the memory, which the
empty loop body never touches. -/
def delayLoop (g : Nat → Nat) (m : Mem) : Nat → Nat → Option (Nat × Mem)
  | _, 0 => none
  | i, fuel + 1 =>
      if g i % 8 ≠ 0 then delayLoop g m (i + 1) fuel
      else some (i + 1, m)

example : delayLoop (fun i => i + 5) ⟨0, 0, 0, 0⟩ 0 10 = some (4, ⟨0, 0, 0, 0⟩) := by decide

/-- Unfolding lemma for the delay loop: if the d-th value after `start`
is the first one divisible by 8, the loop stops after drawing exactly
d + 1 values and returns the memory untouched. -/
theorem delayLoop_stops (g : Nat → Nat) (m : Mem) :
    ∀ (d start : Nat), g (start + d) % 8 = 0 →
      (∀ j, j < d → g (start + j) % 8 ≠ 0) →
      delayLoop g m start (d + 1) = some (start + d + 1, m)
  | 0, start, h0, _ => by
      simp only [delayLoop, Nat.add_zero] at h0 ⊢
      simp [h0]
  | d + 1, start, h0, hlt => by
      have hs : g start % 8 ≠ 0 := by simpa using hlt 0 (Nat.succ_pos d)
      have e1 : start + 1 + d = start + (d + 1) := by omega
      have IH := delayLoop_stops g m d (start + 1)
        (by rw [e1]; exact h0)
        (fun j hj => by
          have := hlt (j + 1) (by omega)
          simpa [Nat.add_assoc, Nat.add_comm 1 j] using this)
      have step : delayLoop g m start (d + 1 + 1) =
          if g start % 8 ≠ 0 then delayLoop g m (start + 1) (d + 1)
          else some (start + 1, m) := rfl
      rw [step, if_pos hs, IH, show start + 1 + d + 1 = start + (d + 1) + 1 from by omega]

/-- C8: under the hypothesis that the pseudo-random stream eventually
yields a value divisible by 8, the delay loop `while (rand() % 8 != 0) {}`
terminates: some fuel makes it return, it keeps drawing exactly while the
drawn value is nonzero modulo 8 (the last drawn value is the first one
divisible by 8), and the memory — shared variables and result cells —
comes back exactly as it went in. -/
theorem delay_terminates_no_write (g : Nat → Nat) (m : Mem)
    (h : ∃ n, g n % 8 = 0) :
    ∃ fuel k, delayLoop g m 0 fuel = some (k, m) ∧ 1 ≤ k ∧
      g (k - 1) % 8 = 0 ∧ ∀ j, j < k - 1 → g j % 8 ≠ 0 := by
  classical
  refine ⟨Nat.find h + 1, Nat.find h + 1, ?_, by omega, ?_, ?_⟩
  · have := delayLoop_stops g m (Nat.find h) 0 (by simpa using Nat.find_spec h)
      (fun j hj => by simpa using Nat.find_min h hj)
    simpa using this
  · simpa using Nat.find_spec h
  · intro j hj
    exact Nat.find_min h (by omega)

/-- Closed witness: on the stream i ↦ 8·i the first value already stops
the loop after one draw, and the memory is returned unchanged. -/
theorem delay_terminates_no_write_witness :
    ∃ fuel k,
      delayLoop (fun i => 8 * i) ⟨0, 0, 1, 1⟩ 0 fuel = some (k, ⟨0, 0, 1, 1⟩) ∧
      1 ≤ k ∧ 8 * (k - 1) % 8 = 0 ∧ ∀ j, j < k - 1 → 8 * j % 8 ≠ 0 :=
  delay_terminates_no_write (fun i => 8 * i) ⟨0, 0, 1, 1⟩ ⟨0, by decide⟩

/-- The return codes the C library hands back to `main`'s startup
sequence, one `int` per call (0 = success, nonzero = failure):
`sem_init` for the four semaphores (lines 129-132) and `pthread_create`
for the two workers (lines 136-137). -/
structure StartupEnv where
  semInitBegin1 : Int
  semInitBegin2 : Int
  semInitEnd1 : Int
  semInitEnd2 : Int
  createThread1 : Int
  createThread2 : Int
deriving DecidableEq, Repr

/-- Where control ends up after a startup sequence. -/
inductive MainPhase where
  | trialLoop : MainPhase
  | aborted : MainPhase
deriving DecidableEq, Repr

/-- Lines 125-141 of `main`: print the processor count, call `sem_init`
four times and `pthread_create` twice, then fall through into the trial
loop.  The source inspects none of the six return values — there is no
`if`, no `exit`, no message on any of them — so control reaches the
trial loop whatever the environment reports. -/
def mainStartup (env : StartupEnv) : MainPhase :=
  let _rc1 := env.semInitBegin1
  let _rc2 := env.semInitBegin2
  let _rc3 := env.semInitEnd1
  let _rc4 := env.semInitEnd2
  let _rc5 := env.createThread1
  let _rc6 := env.createThread2
  MainPhase.trialLoop

/-- Lines 71-78 of the worker functions: seed the generator and call
`pthread_setaffinity_np`; its return value is likewise discarded and the
worker falls into its loop. -/
def workerStartup (setAffinityResult : Int) : MainPhase :=
  let _rc := setAffinityResult
  MainPhase.trialLoop

/-- C7 counterexample: with `sem_init(&beginSema1, 0, 0)` reporting
failure (-1), the process does not abort — it enters the trial loop all
the same, surfacing nothing. -/
theorem startup_failure_not_fatal_counterexample :
    (⟨-1, 0, 0, 0, 0, 0⟩ : StartupEnv).semInitBegin1 ≠ 0 ∧
    mainStartup ⟨-1, 0, 0, 0, 0, 0⟩ = MainPhase.trialLoop := by
  decide

/-- C7 amended: the startup code checks none of its return values — for
every combination of `sem_init`/`pthread_create` results `main` proceeds
into the trial loop, and for every `pthread_setaffinity_np` result the
worker proceeds into its loop; no abort path exists. -/
theorem startup_never_aborts (env : StartupEnv) (rc : Int) :
    mainStartup env = MainPhase.trialLoop ∧
    workerStartup rc = MainPhase.trialLoop :=
  ⟨rfl, rfl⟩

/-- One line of output of the program: the arguments of the printf at
line 160, `"%d reorders detected after %d iterations"`. -/
structure Report where
  detected : Nat
  iterations : Nat
deriving DecidableEq, Repr

/-- Lines 156-161 of `main`: given the violation counter `detected`, the
trial index `iterations` and the just-completed trial's result cells, if
`r1 == 0 && r2 == 0` the counter is incremented and a report with the new
counter value and the current trial index is printed; otherwise nothing
happens. Returns the new counter and the emitted output. -/
def checkTrial (detected iterations : Nat) (r1 r2 : Int) : Nat × List Report :=
  if r1 = 0 ∧ r2 = 0 then
    (detected + 1, [⟨detected + 1, iterations⟩])
  else
    (detected, [])

/-- C1: the violation counter is incremented by exactly 1 and a single
report carrying the new counter value and the current trial index is
emitted iff both result cells are 0; for any other result pair both the
counter and the output are unchanged; in all cases the counter is
non-decreasing and grows by at most 1 in one trial. -/
theorem checkTrial_spec (detected iterations : Nat) (r1 r2 : Int) :
    (r1 = 0 ∧ r2 = 0 →
      checkTrial detected iterations r1 r2 =
        (detected + 1, [⟨detected + 1, iterations⟩])) ∧
    (¬(r1 = 0 ∧ r2 = 0) →
      checkTrial detected iterations r1 r2 = (detected, [])) ∧
    detected ≤ (checkTrial detected iterations r1 r2).1 ∧
    (checkTrial detected iterations r1 r2).1 ≤ detected + 1 := by
  by_cases h : r1 = 0 ∧ r2 = 0 <;>
    simp [checkTrial, h]

/-- Closed witness: a (0,0) trial bumps the counter from 0 to 1 and
reports (1, trial 5); a (1,0) trial leaves the counter at 3 and is silent. -/
theorem checkTrial_spec_witness :
    checkTrial 0 5 0 0 = (1, [⟨1, 5⟩]) ∧ checkTrial 3 7 1 0 = (3, []) :=
  ⟨(checkTrial_spec 0 5 0 0).1 (by decide),
    (checkTrial_spec 3 7 1 0).2.1 (by decide)⟩

/-- The trial loop of `main` (lines 140-162) run over a finite schedule of
injected trial results: starting from counter `detected`, trial index
`iterations` and output accumulated so far, each trial is checked with
`checkTrial` and then the trial index is incremented (the `iterations++`
of line 143). Returns the final counter, the final trial index and the
full output. -/
def runTrialsFrom (detected iterations : Nat) (out : List Report) :
    List (Int × Int) → Nat × Nat × List Report
  | [] => (detected, iterations, out)
  | (a, b) :: rest =>
      let step := checkTrial detected iterations a b
      runTrialsFrom step.1 (iterations + 1) (out ++ step.2) rest

/-- The trial loop as `main` enters it: `detected = 0` (line 140) and
`iterations = 1` (line 141), no output yet. -/
def runTrials (results : List (Int × Int)) : Nat × Nat × List Report :=
  runTrialsFrom 0 1 [] results

example : runTrials [(1, 0), (0, 0), (0, 0)] = (2, 4, [⟨1, 2⟩, ⟨2, 3⟩]) := by decide

/-- Induction workhorse for the trial loop: the trial index advances by
one per trial, already-emitted output is preserved, every report points
(relative to the starting index) at a trial whose result pair was (0, 0),
and every (0, 0) trial gets a report carrying its index. -/
theorem runTrialsFrom_reports :
    ∀ (results : List (Int × Int)) (d it : Nat) (out : List Report),
    (runTrialsFrom d it out results).2.1 = it + results.length ∧
    (∀ rep ∈ out, rep ∈ (runTrialsFrom d it out results).2.2) ∧
    (∀ rep ∈ (runTrialsFrom d it out results).2.2,
      rep ∈ out ∨ (it ≤ rep.iterations ∧ results[rep.iterations - it]? = some (0, 0))) ∧
    (∀ n : Nat, results[n]? = some (0, 0) →
      ∃ rep ∈ (runTrialsFrom d it out results).2.2, rep.iterations = it + n)
  | [], d, it, out => by
      refine ⟨by simp [runTrialsFrom], fun rep h => h, fun rep h => Or.inl h, fun n hn => ?_⟩
      simp at hn
  | (a, b) :: rest, d, it, out => by
      have IH := runTrialsFrom_reports rest (checkTrial d it a b).1 (it + 1)
        (out ++ (checkTrial d it a b).2)
      rw [runTrialsFrom]
      refine ⟨?_, ?_, ?_, ?_⟩
      · rw [IH.1, List.length_cons]; omega
      · intro rep h
        exact IH.2.1 rep (List.mem_append.mpr (Or.inl h))
      · intro rep hrep
        rcases IH.2.2.1 rep hrep with hout | ⟨hle, hget⟩
        · rcases List.mem_append.mp hout with h | h
          · exact Or.inl h
          · by_cases hab : a = 0 ∧ b = 0
            · right
              simp [checkTrial, hab] at h
              subst h
              simp [hab.1, hab.2]
            · simp [checkTrial, hab] at h
        · right
          refine ⟨by omega, ?_⟩
          have hidx : rep.iterations - it = (rep.iterations - (it + 1)) + 1 := by omega
          rw [hidx]
          simpa using hget
      · intro n hn
        match n with
        | 0 =>
            simp at hn
            have hmem : (⟨d + 1, it⟩ : Report) ∈ out ++ (checkTrial d it a b).2 := by
              simp [checkTrial, hn.1, hn.2]
            exact ⟨⟨d + 1, it⟩, IH.2.1 _ hmem, by simp⟩
        | k + 1 =>
            simp only [List.getElem?_cons_succ] at hn
            obtain ⟨rep, hmem, hit⟩ := IH.2.2.2 k hn
            exact ⟨rep, hmem, by omega⟩

/-- C10: the trial index is 1-based — entering the loop with
`iterations = 1` and incrementing after each trial, the final index is
the trial count plus 1; every emitted report's trial index N satisfies
1 ≤ N and names exactly the N-th trial (whose result pair was (0, 0));
and every (0, 0) trial, the very first included, is reported with its
1-based index. -/
theorem trial_index_one_based (results : List (Int × Int)) :
    (runTrials results).2.1 = results.length + 1 ∧
    (∀ rep ∈ (runTrials results).2.2,
      1 ≤ rep.iterations ∧ results[rep.iterations - 1]? = some (0, 0)) ∧
    (∀ n : Nat, results[n]? = some (0, 0) →
      ∃ rep ∈ (runTrials results).2.2, rep.iterations = n + 1) := by
  have H := runTrialsFrom_reports results 0 1 []
  refine ⟨by rw [runTrials, H.1]; omega, fun rep hrep => ?_, fun n hn => ?_⟩
  · rcases H.2.2.1 rep hrep with hout | ⟨hle, hget⟩
    · simp at hout
    · exact ⟨hle, hget⟩
  · obtain ⟨rep, hmem, hit⟩ := H.2.2.2 n hn
    exact ⟨rep, hmem, by omega⟩

/-- Closed witness: a violation in the very first trial is reported with
trial index 1, and the final trial index after two trials is 3. -/
theorem trial_index_one_based_witness :
    (runTrials [(0, 0), (1, 1)]).2.1 = 3 ∧
    (∃ rep ∈ (runTrials [(0, 0), (1, 1)]).2.2, rep.iterations = 0 + 1) ∧
    (1 ≤ (1 : Nat) ∧ [((0 : Int), (0 : Int)), (1, 1)][(1 : Nat) - 1]? = some (0, 0)) :=
  ⟨(trial_index_one_based [(0, 0), (1, 1)]).1,
    (trial_index_one_based [(0, 0), (1, 1)]).2.2 0 (by decide),
    (trial_index_one_based [(0, 0), (1, 1)]).2.1 ⟨1, 1⟩ (by decide)⟩
